import Mathlib

/-!
Verification development for the HR resume-management pipeline
(`resume_processor.py`, `main_v2.py`, `database.py`).

The Python code is shallowly embedded: JSON values become the inductive
`Json`, pandas rows become Lean structures, `datetime` values become
`PyDate` records, and the SQLite table becomes a list of rows.  Each
definition below is a direct transcription of the corresponding Python
function; doc comments name the source location.
-/

set_option maxRecDepth 4096

/-- A parsed JSON value, as produced by `json.loads` in
`process_resume_json_files`.  Numbers are modelled as integers (the
claims never exercise float-valued fields). -/
inductive Json where
  | null : Json
  | bool (b : Bool) : Json
  | num (n : Int) : Json
  | str (s : String) : Json
  | arr (xs : List Json) : Json
  | obj (kvs : List (String × Json)) : Json

mutual
def jsonDecEq : (a b : Json) → Decidable (a = b)
  | .null, .null => isTrue rfl
  | .null, .bool _ => isFalse (fun h => Json.noConfusion h)
  | .null, .num _ => isFalse (fun h => Json.noConfusion h)
  | .null, .str _ => isFalse (fun h => Json.noConfusion h)
  | .null, .arr _ => isFalse (fun h => Json.noConfusion h)
  | .null, .obj _ => isFalse (fun h => Json.noConfusion h)
  | .bool _, .null => isFalse (fun h => Json.noConfusion h)
  | .bool x, .bool y =>
      if h : x = y then isTrue (by rw [h])
      else isFalse (by intro e; injection e with h2; exact h h2)
  | .bool _, .num _ => isFalse (fun h => Json.noConfusion h)
  | .bool _, .str _ => isFalse (fun h => Json.noConfusion h)
  | .bool _, .arr _ => isFalse (fun h => Json.noConfusion h)
  | .bool _, .obj _ => isFalse (fun h => Json.noConfusion h)
  | .num _, .null => isFalse (fun h => Json.noConfusion h)
  | .num _, .bool _ => isFalse (fun h => Json.noConfusion h)
  | .num x, .num y =>
      if h : x = y then isTrue (by rw [h])
      else isFalse (by intro e; injection e with h2; exact h h2)
  | .num _, .str _ => isFalse (fun h => Json.noConfusion h)
  | .num _, .arr _ => isFalse (fun h => Json.noConfusion h)
  | .num _, .obj _ => isFalse (fun h => Json.noConfusion h)
  | .str _, .null => isFalse (fun h => Json.noConfusion h)
  | .str _, .bool _ => isFalse (fun h => Json.noConfusion h)
  | .str _, .num _ => isFalse (fun h => Json.noConfusion h)
  | .str x, .str y =>
      if h : x = y then isTrue (by rw [h])
      else isFalse (by intro e; injection e with h2; exact h h2)
  | .str _, .arr _ => isFalse (fun h => Json.noConfusion h)
  | .str _, .obj _ => isFalse (fun h => Json.noConfusion h)
  | .arr _, .null => isFalse (fun h => Json.noConfusion h)
  | .arr _, .bool _ => isFalse (fun h => Json.noConfusion h)
  | .arr _, .num _ => isFalse (fun h => Json.noConfusion h)
  | .arr _, .str _ => isFalse (fun h => Json.noConfusion h)
  | .arr xs, .arr ys =>
      match jsonDecEqList xs ys with
      | isTrue h => isTrue (by rw [h])
      | isFalse h => isFalse (by intro e; injection e with h2; exact h h2)
  | .arr _, .obj _ => isFalse (fun h => Json.noConfusion h)
  | .obj _, .null => isFalse (fun h => Json.noConfusion h)
  | .obj _, .bool _ => isFalse (fun h => Json.noConfusion h)
  | .obj _, .num _ => isFalse (fun h => Json.noConfusion h)
  | .obj _, .str _ => isFalse (fun h => Json.noConfusion h)
  | .obj _, .arr _ => isFalse (fun h => Json.noConfusion h)
  | .obj xs, .obj ys =>
      match jsonDecEqKVs xs ys with
      | isTrue h => isTrue (by rw [h])
      | isFalse h => isFalse (by intro e; injection e with h2; exact h h2)

def jsonDecEqList : (a b : List Json) → Decidable (a = b)
  | [], [] => isTrue rfl
  | [], _ :: _ => isFalse (fun h => List.noConfusion h)
  | _ :: _, [] => isFalse (fun h => List.noConfusion h)
  | x :: xs, y :: ys =>
      match jsonDecEq x y with
      | isFalse h1 => isFalse (by intro e; injection e with e1 e2; exact h1 e1)
      | isTrue h1 =>
        match jsonDecEqList xs ys with
        | isTrue h2 => isTrue (by rw [h1, h2])
        | isFalse h2 => isFalse (by intro e; injection e with e1 e2; exact h2 e2)

def jsonDecEqKVs : (a b : List (String × Json)) → Decidable (a = b)
  | [], [] => isTrue rfl
  | [], _ :: _ => isFalse (fun h => List.noConfusion h)
  | _ :: _, [] => isFalse (fun h => List.noConfusion h)
  | (k1, v1) :: xs, (k2, v2) :: ys =>
      if hk : k1 = k2 then
        match jsonDecEq v1 v2 with
        | isFalse h1 => isFalse (by
            intro e; injection e with e1 e2
            injection e1 with ek ev; exact h1 ev)
        | isTrue h1 =>
          match jsonDecEqKVs xs ys with
          | isTrue h2 => isTrue (by rw [hk, h1, h2])
          | isFalse h2 => isFalse (by intro e; injection e with e1 e2; exact h2 e2)
      else
        isFalse (by intro e; injection e with e1 e2; injection e1 with ek ev; exact hk ek)
end

instance : DecidableEq Json := jsonDecEq

/-- Python `dict.get(k, default)` on a JSON object's key-value list
(keys are unique after `json.loads`, so first match suffices). -/
def getD (kvs : List (String × Json)) (k : String) (d : Json) : Json :=
  match kvs.find? (fun kv => kv.1 == k) with
  | some kv => kv.2
  | none => d

/-- Python truthiness of a JSON-derived value (`if resume_data.get('Work Experiences'):`). -/
def pyTruthy : Json → Bool
  | Json.null => false
  | Json.bool b => b
  | Json.num n => n != 0
  | Json.str s => s != ""
  | Json.arr xs => !xs.isEmpty
  | Json.obj kvs => !kvs.isEmpty

mutual
/-- Python `repr()` of a JSON-derived value (used by `str()` on containers). -/
def pyRepr : Json → String
  | Json.null => "None"
  | Json.bool true => "True"
  | Json.bool false => "False"
  | Json.num n => toString n
  | Json.str s => "'" ++ s ++ "'"
  | Json.arr xs => "[" ++ ", ".intercalate (pyReprList xs) ++ "]"
  | Json.obj kvs => "\x7b" ++ ", ".intercalate (pyReprKVs kvs) ++ "\x7d"

def pyReprList : List Json → List String
  | [] => []
  | x :: xs => pyRepr x :: pyReprList xs

def pyReprKVs : List (String × Json) → List String
  | [] => []
  | (k, v) :: kvs => ("'" ++ k ++ "': " ++ pyRepr v) :: pyReprKVs kvs
end

/-- Python `str()` of a JSON-derived value (f-string interpolation). -/
def pyStr : Json → String
  | Json.str s => s
  | v => pyRepr v

/-- The character set of Python `str.strip(' -')` in
`resume_processor.py:125`. -/
def stripSet : List Char := [' ', '-']

/-- Python `str.strip(chars)`: remove the given characters from both ends. -/
def pyStripSet (set : List Char) (s : String) : String :=
  ⟨((s.data.dropWhile (fun c => set.contains c)).reverse.dropWhile
      (fun c => set.contains c)).reverse⟩

/-- Embeds `resume_data.get('Graduation', \x7b\x7d) or \x7b\x7d`
(`resume_processor.py:122`). -/
def gradInfo (r : List (String × Json)) : Json :=
  let g := getD r "Graduation" (Json.obj [])
  if pyTruthy g then g else Json.obj []

/-- Embeds `graduation_info.get('Degree', '') if isinstance(graduation_info, dict) else ''`
(`resume_processor.py:123`). -/
def gradDegree (r : List (String × Json)) : Json :=
  match gradInfo r with
  | Json.obj kvs => getD kvs "Degree" (Json.str "")
  | _ => Json.str ""

/-- Embeds `graduation_info.get('Institution', '') if isinstance(graduation_info, dict) else ''`
(`resume_processor.py:124`). -/
def gradInstitution (r : List (String × Json)) : Json :=
  match gradInfo r with
  | Json.obj kvs => getD kvs "Institution" (Json.str "")
  | _ => Json.str ""

/-- Embeds `f"\x7bgraduation_degree\x7d - \x7bgraduation_institution\x7d".strip(' -')`
(`resume_processor.py:125`). -/
def graduationStr (r : List (String × Json)) : String :=
  pyStripSet stripSet (pyStr (gradDegree r) ++ " - " ++ pyStr (gradInstitution r))

/-- One flattened row appended to `all_resumes`
(`resume_processor.py:129-149`). -/
structure FlatRow where
  name : Json
  mobile : Json
  email : Json
  graduation : String
  company : Json
  role : Json
  duration : Json
deriving DecidableEq

/-- The placeholder row emitted when `Work Experiences` is falsy
(`resume_processor.py:140-149`). -/
def placeholderRow (nm mb em : Json) (gr : String) : FlatRow :=
  ⟨nm, mb, em, gr, Json.str "", Json.str "", Json.str ""⟩

/-- The `for experience in resume_data['Work Experiences']` loop
(`resume_processor.py:128-138`).  A non-object entry raises
`AttributeError` at `experience.get`, which the per-file handler at
lines 161-169 catches: rows appended before the bad entry survive,
and the error is recorded.  The second component is the caught
exception's class name, `none` when the loop completes. -/
def flattenExp (nm mb em : Json) (gr : String) : List Json → List FlatRow × Option String
  | [] => ([], none)
  | Json.obj kvs :: es =>
      let rest := flattenExp nm mb em gr es
      (⟨nm, mb, em, gr, getD kvs "Company" (Json.str ""), getD kvs "Role" (Json.str ""),
        getD kvs "Duration" (Json.str "")⟩ :: rest.1, rest.2)
  | _ :: _ => ([], some "AttributeError")

/-- Dispatch on the runtime type of a truthy `Work Experiences` value.
Iterating a Python string yields characters and iterating a dict yields
string keys, so both hit `AttributeError` on `.get` at the first
element (truthiness guarantees there is one); numbers and booleans are
not iterable (`TypeError`). -/
def flattenWE (nm mb em : Json) (gr : String) : Json → List FlatRow × Option String
  | Json.arr xs => flattenExp nm mb em gr xs
  | Json.str _ => ([], some "AttributeError")
  | Json.obj _ => ([], some "AttributeError")
  | _ => ([], some "TypeError")

/-- Flattening of one top-level resume record
(`resume_processor.py:122-149` together with the exception handler at
lines 161-169).  Returns the rows contributed to `all_resumes` and the
caught exception's class name, if any. -/
def flattenRecord (r : List (String × Json)) : List FlatRow × Option String :=
  if pyTruthy (getD r "Work Experiences" Json.null) then
    flattenWE (getD r "Name" (Json.str "")) (getD r "Mobile" (Json.str ""))
      (getD r "Email" (Json.str "")) (graduationStr r)
      (getD r "Work Experiences" Json.null)
  else
    ([placeholderRow (getD r "Name" (Json.str "")) (getD r "Mobile" (Json.str ""))
        (getD r "Email" (Json.str "")) (graduationStr r)], none)

/-- Is this JSON value an object (Python `dict`)? -/
def isObjB : Json → Bool
  | Json.obj _ => true
  | _ => false

/-- Python `''.join(filter(str.isdigit, s))`. -/
def digitsOf (s : String) : String :=
  ⟨s.data.filter Char.isDigit⟩

/-- Embeds `flatten_mobile` from `main_v2.py:60-67`.  An empty-list mobile
becomes Python `None` (modelled as `Json.null`, which is also what a
missing mobile passes through unchanged); a non-empty list keeps the
digits of `str()` of its first element; a string keeps its digits; any
other value is returned unchanged. -/
def flatten_mobile : Json → Json
  | Json.arr [] => Json.null
  | Json.arr (x :: _) => Json.str (digitsOf (pyStr x))
  | Json.str s => Json.str (digitsOf s)
  | m => m

/-- A row as seen by the aggregation step of `upload_resumes`
(`main_v2.py:69-81`): its `Mobile` cell and its `Calculated_Duration`. -/
structure AggRow where
  mobile : Json
  dur : Int
deriving DecidableEq

/-- Embeds `df['Mobile'] = df['Mobile'].apply(flatten_mobile)` followed by
`df.dropna(subset=['Mobile'])` (`main_v2.py:70-73`): normalize every
mobile cell, then drop rows whose cell is `None`/NaN. -/
def cleanRows (rows : List AggRow) : List AggRow :=
  (rows.map (fun r => ⟨flatten_mobile r.mobile, r.dur⟩)).filter
    (fun r => r.mobile != Json.null)

/-- The distinct group keys of
`df.groupby(['Mobile'])['Calculated_Duration'].sum()` (`main_v2.py:79`). -/
def aggKeys (rows : List AggRow) : List Json :=
  ((cleanRows rows).map (fun r => r.mobile)).dedup

/-- The summed `Calculated_Duration` for one group key of the
`groupby` at `main_v2.py:79`. -/
def aggTotal (rows : List AggRow) (k : Json) : Int :=
  (((cleanRows rows).filter (fun r => r.mobile == k)).map (fun r => r.dur)).sum

/-- A `datetime` value as far as this pipeline observes it
(`strptime` also validates the day component). -/
structure PyDate where
  year : Int
  month : Nat
  day : Nat
deriving DecidableEq

/-- Python whitespace for `str.strip()` / regex `\s`. -/
def pyIsSpace (c : Char) : Bool :=
  c = ' ' || c = '\t' || c = '\n' || c = '\r' || c = '\x0b' || c = '\x0c'

/-- Python `str.strip()`. -/
def pyStrip (s : String) : String :=
  ⟨((s.data.dropWhile pyIsSpace).reverse.dropWhile pyIsSpace).reverse⟩

/-- Python `str.lower()` (ASCII; the claims only exercise ASCII text). -/
def pyLower (s : String) : String :=
  ⟨s.data.map Char.toLower⟩

/-- Python `str.split(sep)` for a one-character separator. -/
def pySplitChar (c : Char) : List Char → List (List Char)
  | [] => [[]]
  | a :: as =>
      let r := pySplitChar c as
      if a = c then [] :: r
      else
        match r with
        | seg :: rest => (a :: seg) :: rest
        | [] => [[a]]

/-- Embeds `x.split(sep)[0]` — the text before the first separator. -/
def beforeFirstSep (c : Char) (x : String) : String :=
  ⟨(pySplitChar c x.data).headD []⟩

/-- Embeds `x.split(sep)[-1]` — the text after the last separator. -/
def afterLastSep (c : Char) (x : String) : String :=
  ⟨(pySplitChar c x.data).getLastD []⟩

/-- The en-dash character used by `process_duration_column`. -/
def enDash : Char := '–'

/-- The start-token lambda of `resume_processor.py:241-244`:
`x.split('–')[0].strip() if '–' in str(x) else x.split('-')[0].strip() if '-' in str(x) else x`. -/
def startToken (x : String) : String :=
  if x.data.contains enDash then pyStrip (beforeFirstSep enDash x)
  else if x.data.contains '-' then pyStrip (beforeFirstSep '-' x)
  else x

/-- The end-token lambda of `resume_processor.py:245-248`:
`x.split('–')[-1].strip() if '–' in str(x) else x.split('-')[-1].strip() if '-' in str(x) else None`. -/
def endTokenOpt (x : String) : Option String :=
  if x.data.contains enDash then some (pyStrip (afterLastSep enDash x))
  else if x.data.contains '-' then some (pyStrip (afterLastSep '-' x))
  else none

/-- Embeds `calculate_duration_in_months` (`resume_processor.py:231-239`);
`now` stands for `datetime.now()`. -/
def calculate_duration_in_months (start e : Option PyDate) (now : PyDate) : Int :=
  match start with
  | none => 0
  | some s =>
      let en := match e with
        | none => now
        | some d => d
      (en.year - s.year) * 12 + ((en.month : Int) - (s.month : Int))

/-- One directive of a `strptime` format string, as compiled by
CPython's `_strptime.TimeRE`: month names, the numeric classes
`%m`/`%d`/`%Y`, a literal character, or format whitespace (`\s+`). -/
inductive Dir where
  | monthAbbr : Dir
  | monthFull : Dir
  | numMonth : Dir
  | numDay : Dir
  | numYear4 : Dir
  | lit (c : Char) : Dir
  | ws : Dir

/-- Partial field assignment built while matching a format. -/
structure DParts where
  y : Option Nat
  mo : Option Nat
  d : Option Nat
deriving DecidableEq

/-- Abbreviated month names (C locale), as matched by `%b`
(the input string is already lowercased by `parse_date`). -/
def monthAbbrNames : List (String × Nat) :=
  [("jan", 1), ("feb", 2), ("mar", 3), ("apr", 4), ("may", 5), ("jun", 6),
   ("jul", 7), ("aug", 8), ("sep", 9), ("oct", 10), ("nov", 11), ("dec", 12)]

/-- Full month names as matched by `%B`, in `TimeRE`'s
longest-first alternation order. -/
def monthFullNames : List (String × Nat) :=
  [("september", 9), ("february", 2), ("november", 11), ("december", 12),
   ("january", 1), ("october", 10), ("august", 8), ("march", 3),
   ("april", 4), ("june", 6), ("july", 7), ("may", 5)]

/-- Match one name of the table as a prefix of the input. -/
def matchName (names : List (String × Nat)) (s : List Char) : List (Nat × List Char) :=
  names.filterMap (fun nv =>
    if nv.1.data.isPrefixOf s then some (nv.2, s.drop nv.1.data.length) else none)

def digitVal (c : Char) : Nat := c.toNat - '0'.toNat

/-- Alternatives of `%m`, regex `(1[0-2]|0[1-9]|[1-9])`, in order. -/
def numMonthAlts : List Char → List (Nat × List Char)
  | s =>
    (match s with
     | '1' :: c :: rest => if '0' ≤ c ∧ c ≤ '2' then [(10 + digitVal c, rest)] else []
     | _ => []) ++
    (match s with
     | '0' :: c :: rest => if '1' ≤ c ∧ c ≤ '9' then [(digitVal c, rest)] else []
     | _ => []) ++
    (match s with
     | c :: rest => if '1' ≤ c ∧ c ≤ '9' then [(digitVal c, rest)] else []
     | _ => [])

/-- Alternatives of `%d`, regex `(3[01]|[12]\d|0[1-9]|[1-9])`, in order. -/
def numDayAlts : List Char → List (Nat × List Char)
  | s =>
    (match s with
     | '3' :: c :: rest => if '0' ≤ c ∧ c ≤ '1' then [(30 + digitVal c, rest)] else []
     | _ => []) ++
    (match s with
     | c1 :: c2 :: rest =>
        if ('1' ≤ c1 ∧ c1 ≤ '2') ∧ c2.isDigit then [(10 * digitVal c1 + digitVal c2, rest)] else []
     | _ => []) ++
    (match s with
     | '0' :: c :: rest => if '1' ≤ c ∧ c ≤ '9' then [(digitVal c, rest)] else []
     | _ => []) ++
    (match s with
     | c :: rest => if '1' ≤ c ∧ c ≤ '9' then [(digitVal c, rest)] else []
     | _ => [])

/-- Embeds `%Y`, regex `(\d\d\d\d)`: exactly four digits. -/
def numYearAlts : List Char → List (Nat × List Char)
  | a :: b :: c :: d :: rest =>
      if a.isDigit ∧ b.isDigit ∧ c.isDigit ∧ d.isDigit then
        [(1000 * digitVal a + 100 * digitVal b + 10 * digitVal c + digitVal d, rest)]
      else []
  | _ => []

/-- Embeds `\s+` (a space in the format): one or more whitespace characters,
greedy alternatives longest-first. -/
def wsAlts (s : List Char) : List (List Char) :=
  let k := (s.takeWhile pyIsSpace).length
  (List.range k).map (fun i => s.drop (k - i))

/-- All ways one directive can consume a prefix of the input, in the
backtracking order of the compiled regex. -/
def dirOptions (p : DParts) : Dir → List Char → List (DParts × List Char)
  | Dir.monthAbbr, s => (matchName monthAbbrNames s).map (fun vr => (⟨p.y, some vr.1, p.d⟩, vr.2))
  | Dir.monthFull, s => (matchName monthFullNames s).map (fun vr => (⟨p.y, some vr.1, p.d⟩, vr.2))
  | Dir.numMonth, s => (numMonthAlts s).map (fun vr => (⟨p.y, some vr.1, p.d⟩, vr.2))
  | Dir.numDay, s => (numDayAlts s).map (fun vr => (⟨p.y, p.mo, some vr.1⟩, vr.2))
  | Dir.numYear4, s => (numYearAlts s).map (fun vr => (⟨some vr.1, p.mo, p.d⟩, vr.2))
  | Dir.lit c, s =>
      match s with
      | a :: rest => if a = c then [(p, rest)] else []
      | [] => []
  | Dir.ws, s => (wsAlts s).map (fun rest => (p, rest))

/-- Depth-first exploration of all ways a directive list can match a
prefix of the input; the head of the result is the assignment the
backtracking regex engine commits to. -/
def matchAll : List Dir → List (DParts × List Char) → List (DParts × List Char)
  | [], states => states
  | dir :: ds, states =>
      matchAll ds (states.flatMap (fun ps => dirOptions ps.1 dir ps.2))

def isLeap (y : Int) : Bool :=
  y % 4 = 0 && (y % 100 != 0 || y % 400 = 0)

def daysInMonth (y : Int) (m : Nat) : Nat :=
  if m = 2 then (if isLeap y then 29 else 28)
  else if m = 4 ∨ m = 6 ∨ m = 9 ∨ m = 11 then 30
  else 31

/-- Embeds `datetime(year, month, day)`: `ValueError` outside the calendar
range becomes `none`. -/
def mkDatetime (y : Int) (m d : Nat) : Option PyDate :=
  if 1 ≤ y ∧ y ≤ 9999 ∧ 1 ≤ m ∧ m ≤ 12 ∧ 1 ≤ d ∧ d ≤ daysInMonth y m then
    some ⟨y, m, d⟩
  else none

/-- Embeds `datetime.strptime(s, fmt)`: the compiled regex must match from
the start; the engine commits to its first backtracking success, and
only then is full consumption checked ("unconverted data remains").
Missing fields default to year 1900, month 1, day 1. -/
def strptime (fmt : List Dir) (s : String) : Option PyDate :=
  match (matchAll fmt [(⟨none, none, none⟩, s.data)]).head? with
  | some (p, rest) =>
      if rest = [] then mkDatetime ((p.y.getD 1900 : Nat) : Int) (p.mo.getD 1) (p.d.getD 1)
      else none
  | none => none

/-- The `date_formats` list of `parse_date`
(`resume_processor.py:199-203`), compiled to directives:
`'%b %Y', '%B %Y', '%Y-%m', '%m-%Y', '%b. %Y', '%B. %Y',
 '%d %b %Y', '%d %B %Y', '%b %d, %Y', '%B %d, %Y',
 '%Y', '%m/%Y', '%Y/%m'`. -/
def dateFormats : List (List Dir) :=
  [[Dir.monthAbbr, Dir.ws, Dir.numYear4],
   [Dir.monthFull, Dir.ws, Dir.numYear4],
   [Dir.numYear4, Dir.lit '-', Dir.numMonth],
   [Dir.numMonth, Dir.lit '-', Dir.numYear4],
   [Dir.monthAbbr, Dir.lit '.', Dir.ws, Dir.numYear4],
   [Dir.monthFull, Dir.lit '.', Dir.ws, Dir.numYear4],
   [Dir.numDay, Dir.ws, Dir.monthAbbr, Dir.ws, Dir.numYear4],
   [Dir.numDay, Dir.ws, Dir.monthFull, Dir.ws, Dir.numYear4],
   [Dir.monthAbbr, Dir.ws, Dir.numDay, Dir.lit ',', Dir.ws, Dir.numYear4],
   [Dir.monthFull, Dir.ws, Dir.numDay, Dir.lit ',', Dir.ws, Dir.numYear4],
   [Dir.numYear4],
   [Dir.numMonth, Dir.lit '/', Dir.numYear4],
   [Dir.numYear4, Dir.lit '/', Dir.numMonth]]

def firstSome {α β : Type} (f : α → Option β) : List α → Option β
  | [] => none
  | a :: as =>
      match f a with
      | some b => some b
      | none => firstSome f as

/-- The `for fmt in date_formats: try strptime ... except ValueError: continue`
loop (`resume_processor.py:205-209`). -/
def tryFormats (s : String) : Option PyDate :=
  firstSome (fun fmt => strptime fmt s) dateFormats

/-- Regex `\w` (ASCII; the claims only exercise ASCII text). -/
def pyIsWord (c : Char) : Bool :=
  c.isAlphanum || c = '_'

/-- First four characters, if they are all digits. -/
def fourDigits : List Char → Option Nat
  | a :: b :: c :: d :: _ =>
      if a.isDigit ∧ b.isDigit ∧ c.isDigit ∧ d.isDigit then
        some (1000 * digitVal a + 100 * digitVal b + 10 * digitVal c + digitVal d)
      else none
  | _ => none

/-- Try `\s*(\d{4})` after a chosen `\w+` group, spaces greedy
longest-first. -/
def trySpacesYear (after : List Char) : Option Nat :=
  let k := (after.takeWhile pyIsSpace).length
  firstSome (fun i => fourDigits (after.drop (k - i))) (List.range (k + 1))

/-- Try the pattern anchored at this position: `\w+` greedy
longest-first, then `\s*(\d{4})`. -/
def tryWordYearAt (s : List Char) : Option (List Char × Nat) :=
  let w := s.takeWhile pyIsWord
  if w.isEmpty then none
  else
    firstSome
      (fun i =>
        let n := w.length - i
        (trySpacesYear (s.drop n)).map (fun yr => (w.take n, yr)))
      (List.range w.length)

/-- Embeds `re.search(r'(\w+)\s*(\d{4})', s)`: leftmost starting position,
then the engine's backtracking order at that position. -/
def reSearchWordYear : List Char → Option (List Char × Nat)
  | [] => none
  | a :: rest =>
      match tryWordYearAt (a :: rest) with
      | some r => some r
      | none => reSearchWordYear rest

/-- The `months` dictionary lookup `months.get(month_str.lower()[:3], 1)`
(`resume_processor.py:211-223`); only the three-letter keys are
reachable through `[:3]`. -/
def monthsGet (k : String) : Nat :=
  match (monthAbbrNames.find? (fun nv => nv.1 == k)) with
  | some nv => nv.2
  | none => 1

/-- The regex fallback of `parse_date` (`resume_processor.py:220-229`):
extract `(\w+)\s*(\d{4})`, map the word's first three letters through
the month table (default 1), build `datetime(year, month, 1)`. -/
def fallbackSearch (t : String) : Option PyDate :=
  match reSearchWordYear t.data with
  | none => none
  | some (word, yr) =>
      mkDatetime (yr : Int) (monthsGet ⟨word.take 3⟩) 1

/-- Embeds `parse_date` (`resume_processor.py:190-229`); `now` stands for
`datetime.now()`, and `none` input for Python `None`. -/
def parse_date (x : Option String) (now : PyDate) : Option PyDate :=
  match x with
  | none => none
  | some ds =>
    if ds = "" then none
    else
      let t := pyLower (pyStrip ds)
      if t = "present" || t = "running" || t = "current" then some now
      else
        match tryFormats t with
        | some d => some d
        | none => fallbackSearch t

/-- Embeds `df['Start_Date']` for one row (`resume_processor.py:241-244`). -/
def rowStartDate (x : String) (now : PyDate) : Option PyDate :=
  parse_date (some (startToken x)) now

/-- Embeds `df['End_Date']` for one row (`resume_processor.py:245-248`). -/
def rowEndDate (x : String) (now : PyDate) : Option PyDate :=
  parse_date (endTokenOpt x) now

/-- Embeds `df['Calculated_Duration']` for one row (`resume_processor.py:250-253`). -/
def rowCalculatedDuration (x : String) (now : PyDate) : Int :=
  calculate_duration_in_months (rowStartDate x now) (rowEndDate x now) now

/-- A row of the `resumes` table created by `create_table`
(`database.py:23-47`); `mobile` is the `PRIMARY KEY`. -/
structure DbRow where
  name : String
  mobile : String
  email : String
  graduation : String
  company : String
  role : String
  calculated_duration : Int
  total_experience : Int
  created_at : String
deriving DecidableEq

/-- A row of the processed dataframe handed to `insert_resume_data`. -/
structure InputRow where
  name : String
  mobile : String
  email : String
  graduation : String
  company : String
  role : String
  calculated_duration : Int
  total_experience : Int
deriving DecidableEq

/-- The table row the `INSERT` at `database.py:101-115` would create. -/
def rowToDb (row : InputRow) (today : String) : DbRow :=
  ⟨row.name, row.mobile, row.email, row.graduation, row.company, row.role,
   row.calculated_duration, row.total_experience, today⟩

/-- Embeds `insert_resume_data` (`database.py:77-124`).  `today` is
`datetime.now().strftime('%Y-%m-%d')`; SQLite's text comparison of
`created_at < today` is lexicographic.  The first guard is the
`SELECT COUNT(*) ... WHERE mobile = ? AND created_at < ?` skip check;
if it passes but a row with the same mobile still exists, the plain
`INSERT` hits the `PRIMARY KEY` constraint and the raised
`sqlite3.IntegrityError` is caught by the handler at lines 122-124,
leaving the table unchanged and returning `False`. -/
def insert_resume_data (db : List DbRow) (row : InputRow) (today : String) :
    List DbRow × Bool :=
  if (db.filter (fun r => r.mobile == row.mobile && decide (r.created_at < today))).length = 0 then
    if db.any (fun r => r.mobile == row.mobile) then (db, false)
    else (db ++ [rowToDb row today], true)
  else (db, false)

/-- The nine values bound by `update_resume` (`database.py:158-168`),
in order. -/
def updateParams (row : DbRow) : List String :=
  [row.name, row.email, row.graduation, row.company, row.role,
   toString row.calculated_duration, toString row.total_experience,
   row.mobile, row.created_at]

/-- The columns assigned in the `SET` clause of `update_resume`'s SQL
(`database.py:153-157`); together with the single `WHERE mobile = ?`
placeholder the statement has `length + 1 = 8` parameter slots. -/
def updateSetCols : List String :=
  ["name", "email", "graduation", "company", "role",
   "calculated_duration", "total_experience"]

/-- What the `UPDATE` statement would do if it were executed. -/
def applySqlUpdate (db : List DbRow) (row : DbRow) : List DbRow :=
  db.map (fun r =>
    if r.mobile == row.mobile then
      { r with name := row.name, email := row.email, graduation := row.graduation,
               company := row.company, role := row.role,
               calculated_duration := row.calculated_duration,
               total_experience := row.total_experience }
    else r)

/-- Embeds `update_resume` (`database.py:143-171`): `sqlite3` refuses to bind
when the supplied value count differs from the placeholder count
(`ProgrammingError`, a `sqlite3.Error`, caught by the handler at lines
170-171), so the statement only executes when the counts agree. -/
def update_resume (db : List DbRow) (row : DbRow) : List DbRow :=
  if (updateParams row).length = updateSetCols.length + 1 then applySqlUpdate db row
  else db

/-- Modelled from the spec's words (comparator for the graduation
claim): "the non-empty parts joined by `\" - \"`". -/
def specJoin (deg inst : String) : String :=
  if deg = "" then inst
  else if inst = "" then deg
  else deg ++ " - " ++ inst

/-- Shape required for flattening to finish without a caught exception:
the `Work Experiences` value is either falsy or an array of objects. -/
def weOk (r : List (String × Json)) : Bool :=
  match getD r "Work Experiences" Json.null with
  | Json.arr xs => xs.all isObjB
  | v => !pyTruthy v

/-- Example record with two work-experience objects. -/
def rexTwoExp : List (String × Json) :=
  [("Name", Json.str "Ada"), ("Mobile", Json.str "111"), ("Email", Json.str "a@b.c"),
   ("Graduation", Json.obj [("Degree", Json.str "BSc"), ("Institution", Json.str "MIT")]),
   ("Work Experiences",
     Json.arr [Json.obj [("Company", Json.str "X"), ("Role", Json.str "Dev"),
                         ("Duration", Json.str "2020-2022")],
               Json.obj []])]

/-- The work-experience array of `rexTwoExp`. -/
def xsTwoExp : List Json :=
  [Json.obj [("Company", Json.str "X"), ("Role", Json.str "Dev"),
             ("Duration", Json.str "2020-2022")],
   Json.obj []]

/-- Example record whose `Work Experiences` list holds a bare string
instead of an object. -/
def rexBadExp : List (String × Json) :=
  [("Name", Json.str "A"),
   ("Work Experiences", Json.arr [Json.str "Software Engineer at X"])]

/-- Example record with one work-experience object (absent sub-fields). -/
def rexOneExp : List (String × Json) :=
  [("Name", Json.str "B"), ("Work Experiences", Json.arr [Json.obj []])]

/-- Example table with one row for mobile 111 created on 2024-01-01. -/
def dbOld : List DbRow :=
  [⟨"Old", "111", "o@x.c", "G", "C", "R", 1, 2, "2024-01-01"⟩]

/-- Example dataframe row for mobile 111. -/
def rowNew : InputRow :=
  ⟨"New", "111", "n@x.c", "G2", "C2", "R2", 3, 4⟩

theorem stringExt {a b : String} (h : a.data = b.data) : a = b :=
  congrArg String.mk h

theorem flattenExp_obj (nm mb em : Json) (gr : String) :
    ∀ xs : List Json, (∀ e ∈ xs, isObjB e = true) →
      (flattenExp nm mb em gr xs).2 = none ∧
      (flattenExp nm mb em gr xs).1.length = xs.length ∧
      ∀ row ∈ (flattenExp nm mb em gr xs).1,
        row.name = nm ∧ row.mobile = mb ∧ row.email = em ∧ row.graduation = gr := by
  intro xs
  induction xs with
  | nil =>
      intro _
      refine ⟨rfl, rfl, ?_⟩
      intro row hrow
      simp [flattenExp] at hrow
  | cons e es ih =>
      intro h
      have he := h e (List.mem_cons_self e es)
      have hes : ∀ x ∈ es, isObjB x = true := fun x hx => h x (List.mem_cons_of_mem _ hx)
      obtain ⟨rest_none, rest_len, rest_rows⟩ := ih hes
      cases e with
      | obj kvs =>
          refine ⟨by simpa [flattenExp] using rest_none,
                  by simp [flattenExp, rest_len], ?_⟩
          intro row hrow
          simp only [flattenExp, List.mem_cons] at hrow
          rcases hrow with rfl | hrow
          · exact ⟨rfl, rfl, rfl, rfl⟩
          · exact rest_rows row hrow
      | null => simp [isObjB] at he
      | bool b => simp [isObjB] at he
      | num n => simp [isObjB] at he
      | str s => simp [isObjB] at he
      | arr xs => simp [isObjB] at he

theorem dropWhile_fix_head {α : Type} {p : α → Bool} {c : α} {t : List α}
    (h : (c :: t).dropWhile p = c :: t) : p c = false := by
  by_contra hb
  have hpc : p c = true := by
    cases hv : p c
    · exact absurd hv hb
    · rfl
  rw [List.dropWhile_cons_of_pos hpc] at h
  have hlen : (t.dropWhile p).length ≤ t.length := (List.dropWhile_sublist p).length_le
  have := congrArg List.length h
  simp at this
  omega

theorem dropWhile_append_all {α : Type} {p : α → Bool} :
    ∀ (xs ys : List α), (∀ x ∈ xs, p x = true) →
      (xs ++ ys).dropWhile p = ys.dropWhile p := by
  intro xs ys h
  induction xs with
  | nil => simp
  | cons a as ih =>
      have ha : p a = true := h a (List.mem_cons_self a as)
      have has : ∀ x ∈ as, p x = true := fun x hx => h x (List.mem_cons_of_mem _ hx)
      simp [List.dropWhile_cons_of_pos ha, ih has]

theorem dropWhile_append_keep {α : Type} {p : α → Bool} :
    ∀ (xs ys : List α), xs ≠ [] → xs.dropWhile p = xs →
      (xs ++ ys).dropWhile p = xs ++ ys := by
  intro xs ys hne hfix
  cases xs with
  | nil => exact absurd rfl hne
  | cons c t =>
      have hc : p c = false := dropWhile_fix_head hfix
      have hc' : ¬ p c = true := by simp [hc]
      rw [List.cons_append, List.dropWhile_cons_of_neg hc']

theorem stripBoth_join (p : Char → Bool) (d i mid : List Char)
    (hmid : ∀ c ∈ mid, p c = true)
    (hd1 : d.dropWhile p = d) (hd2 : d.reverse.dropWhile p = d.reverse)
    (hi1 : i.dropWhile p = i) (hi2 : i.reverse.dropWhile p = i.reverse) :
    (((d ++ mid ++ i).dropWhile p).reverse.dropWhile p).reverse
      = if d = [] then i else if i = [] then d else d ++ mid ++ i := by
  by_cases hd : d = []
  · subst hd
    simp only [List.nil_append]
    rw [dropWhile_append_all mid i hmid, hi1, hi2, List.reverse_reverse]
    simp
  · rw [if_neg hd]
    have h1 : (d ++ mid ++ i).dropWhile p = d ++ mid ++ i := by
      rw [List.append_assoc]
      exact dropWhile_append_keep d (mid ++ i) hd hd1
    rw [h1]
    by_cases hi : i = []
    · subst hi
      rw [if_pos rfl]
      have hrev : (d ++ mid ++ []).reverse = mid.reverse ++ d.reverse := by
        simp
      rw [hrev, dropWhile_append_all mid.reverse d.reverse
            (fun c hc => hmid c (List.mem_reverse.mp hc)), hd2]
      simp
    · rw [if_neg hi]
      have hrev : (d ++ mid ++ i).reverse = i.reverse ++ (mid.reverse ++ d.reverse) := by
        simp
      rw [hrev, dropWhile_append_keep i.reverse (mid.reverse ++ d.reverse)
            (by simpa using hi) hi2]
      simp

theorem takeWhile_append_all {α : Type} {p : α → Bool} :
    ∀ (xs ys : List α), (∀ x ∈ xs, p x = true) →
      (xs ++ ys).takeWhile p = xs ++ ys.takeWhile p := by
  intro xs ys h
  induction xs with
  | nil => simp
  | cons a as ih =>
      have ha : p a = true := h a (List.mem_cons_self a as)
      have has : ∀ x ∈ as, p x = true := fun x hx => h x (List.mem_cons_of_mem _ hx)
      simp [List.takeWhile_cons_of_pos ha, ih has]

theorem takeWhile_append_stop {α : Type} {p : α → Bool} :
    ∀ (xs ys : List α), xs.takeWhile p ≠ xs →
      (xs ++ ys).takeWhile p = xs.takeWhile p := by
  intro xs ys h
  induction xs with
  | nil => exact absurd rfl h
  | cons a as ih =>
      cases ha : p a with
      | false =>
          have ha' : ¬ p a = true := by simp [ha]
          simp [List.takeWhile_cons_of_neg ha']
      | true =>
          rw [List.takeWhile_cons_of_pos ha] at h ⊢
          rw [List.cons_append, List.takeWhile_cons_of_pos ha]
          have has : as.takeWhile p ≠ as := fun he => h (by rw [he])
          rw [ih has]

theorem takeWhile_append_last {α : Type} {p : α → Bool} (xs : List α) (c : α)
    (hc : p c = false) : (xs ++ [c]).takeWhile p = xs.takeWhile p := by
  have hc' : ¬ p c = true := by simp [hc]
  by_cases h : xs.takeWhile p = xs
  · rw [takeWhile_append_all xs [c] (List.takeWhile_eq_self_iff.mp h)]
    simp [List.takeWhile_cons_of_neg hc', h]
  · exact takeWhile_append_stop xs [c] h

theorem getLastD_of_ne_nil {α : Type} :
    ∀ (l : List α), l ≠ [] → ∀ (x y : α), l.getLastD x = l.getLastD y := by
  intro l hl x y
  cases l with
  | nil => exact absurd rfl hl
  | cons a t => rw [List.getLastD_cons, List.getLastD_cons]

theorem pySplit_ne_nil (c : Char) : ∀ s : List Char, pySplitChar c s ≠ [] := by
  intro s
  cases s with
  | nil => simp [pySplitChar]
  | cons a as =>
      simp only [pySplitChar]
      by_cases ha : a = c
      · simp [ha]
      · simp only [if_neg ha]
        cases pySplitChar c as <;> simp

theorem pySplit_head (c : Char) :
    ∀ s : List Char, (pySplitChar c s).headD [] = s.takeWhile (fun a => a != c) := by
  intro s
  induction s with
  | nil => simp [pySplitChar]
  | cons a as ih =>
      by_cases ha : a = c
      · subst ha
        have hq : ¬ ((fun x => x != a) a) = true := by simp
        have ht : List.takeWhile (fun x => x != a) (a :: as) = [] :=
          @List.takeWhile_cons_of_neg _ (fun x => x != a) a as hq
        rw [ht]
        simp [pySplitChar]
      · have hq : ((fun x => x != c) a) = true := by simp [ha]
        have ht : List.takeWhile (fun x => x != c) (a :: as)
            = a :: List.takeWhile (fun x => x != c) as :=
          @List.takeWhile_cons_of_pos _ (fun x => x != c) a as hq
        cases hr : pySplitChar c as with
        | nil => exact absurd hr (pySplit_ne_nil c as)
        | cons seg rest =>
            rw [hr] at ih
            have h1 : pySplitChar c (a :: as) = (a :: seg) :: rest := by
              simp only [pySplitChar, if_neg ha, hr]
            rw [h1, ht]
            simpa using congrArg (List.cons a) ih

theorem pySplit_all (c : Char) :
    ∀ s : List Char, s.takeWhile (fun a => a != c) = s → pySplitChar c s = [s] := by
  intro s
  induction s with
  | nil => intro _; simp [pySplitChar]
  | cons a as ih =>
      intro h
      by_cases ha : a = c
      · subst ha
        have hq : ¬ ((fun x => x != a) a) = true := by simp
        have ht : List.takeWhile (fun x => x != a) (a :: as) = [] :=
          @List.takeWhile_cons_of_neg _ (fun x => x != a) a as hq
        rw [ht] at h
        exact absurd h (by simp)
      · have hq : ((fun x => x != c) a) = true := by simp [ha]
        have ht : List.takeWhile (fun x => x != c) (a :: as)
            = a :: List.takeWhile (fun x => x != c) as :=
          @List.takeWhile_cons_of_pos _ (fun x => x != c) a as hq
        rw [ht] at h
        have has : as.takeWhile (fun x => x != c) = as := by injection h
        simp only [pySplitChar, if_neg ha, ih has]

theorem pySplit_len_ge2 (c : Char) :
    ∀ s : List Char, s.takeWhile (fun a => a != c) ≠ s →
      2 ≤ (pySplitChar c s).length := by
  intro s
  induction s with
  | nil => intro h; exact absurd rfl h
  | cons a as ih =>
      intro h
      by_cases ha : a = c
      · subst ha
        have hlen : 1 ≤ (pySplitChar a as).length :=
          List.length_pos.mpr (pySplit_ne_nil a as)
        have h2 : pySplitChar a (a :: as) = [] :: pySplitChar a as := by
          simp [pySplitChar]
        rw [h2]
        simp only [List.length_cons]
        omega
      · have hq : ((fun x => x != c) a) = true := by simp [ha]
        have ht : List.takeWhile (fun x => x != c) (a :: as)
            = a :: List.takeWhile (fun x => x != c) as :=
          @List.takeWhile_cons_of_pos _ (fun x => x != c) a as hq
        rw [ht] at h
        have has : as.takeWhile (fun x => x != c) ≠ as := fun he => h (by rw [he])
        have hlen := ih has
        cases hr : pySplitChar c as with
        | nil => exact absurd hr (pySplit_ne_nil c as)
        | cons seg rest =>
            have h1 : pySplitChar c (a :: as) = (a :: seg) :: rest := by
              simp only [pySplitChar, if_neg ha, hr]
            rw [h1]
            rw [hr] at hlen
            simpa using hlen

theorem pySplit_last (c : Char) :
    ∀ s : List Char, (pySplitChar c s).getLastD []
      = (s.reverse.takeWhile (fun a => a != c)).reverse := by
  intro s
  induction s with
  | nil => simp [pySplitChar]
  | cons a as ih =>
      by_cases ha : a = c
      · subst ha
        have h1 : pySplitChar a (a :: as) = [] :: pySplitChar a as := by
          simp [pySplitChar]
        rw [h1, List.getLastD_cons, ih, List.reverse_cons,
          takeWhile_append_last as.reverse a (by simp)]
      · have hq : ((fun x => x != c) a) = true := by simp [ha]
        cases hr : pySplitChar c as with
        | nil => exact absurd hr (pySplit_ne_nil c as)
        | cons seg rest =>
            cases rest with
            | nil =>
                have hall : as.takeWhile (fun x => x != c) = as := by
                  by_contra hne
                  have h2 := pySplit_len_ge2 c as hne
                  rw [hr] at h2
                  simp at h2
                have hseg : seg = as := by
                  have hh := pySplit_head c as
                  rw [hr, hall] at hh
                  simpa using hh
                have hallrev : ∀ x ∈ as.reverse, ((fun x => x != c) x) = true :=
                  fun x hx =>
                    List.takeWhile_eq_self_iff.mp hall x (List.mem_reverse.mp hx)
                have h1 : pySplitChar c (a :: as) = [a :: seg] := by
                  simp only [pySplitChar, if_neg ha, hr]
                have h3 : ([a] : List Char).takeWhile (fun x => x != c) = [a] :=
                  @List.takeWhile_cons_of_pos _ (fun x => x != c) a [] hq
                have h4 : ([a :: seg] : List (List Char)).getLastD [] = a :: seg := by
                  simp
                rw [h1, h4, hseg, List.reverse_cons,
                  takeWhile_append_all as.reverse [a] hallrev, h3]
                simp
            | cons r2 rs =>
                have hne : as.takeWhile (fun x => x != c) ≠ as := by
                  intro hall
                  have h2 := pySplit_all c as hall
                  rw [hr] at h2
                  simp at h2
                have hnerev : as.reverse.takeWhile (fun x => x != c) ≠ as.reverse := by
                  intro hall
                  exact hne (List.takeWhile_eq_self_iff.mpr
                    (fun x hx => List.takeWhile_eq_self_iff.mp hall x (List.mem_reverse.mpr hx)))
                have h1 : pySplitChar c (a :: as) = (a :: seg) :: r2 :: rs := by
                  simp only [pySplitChar, if_neg ha, hr]
                rw [hr, List.getLastD_cons] at ih
                rw [h1, List.getLastD_cons,
                  getLastD_of_ne_nil (r2 :: rs) (by simp) (a :: seg) seg,
                  List.reverse_cons, takeWhile_append_stop as.reverse [a] hnerev, ih]

/-- C1: For every well-formed input record, flattening produces exactly
N flat rows when the record has N >= 1 work-experience entries, each
row carrying the record's Name, Mobile, Email and Graduation fields;
and exactly 1 row with empty Company, Role and Duration when work
experiences are absent or empty. -/
theorem flatten_row_count_and_identity (r : List (String × Json)) :
    (∀ xs : List Json, getD r "Work Experiences" Json.null = Json.arr xs →
       (∀ e ∈ xs, isObjB e = true) → xs ≠ [] →
       (flattenRecord r).1.length = xs.length ∧ (flattenRecord r).2 = none ∧
       ∀ row ∈ (flattenRecord r).1,
         row.name = getD r "Name" (Json.str "") ∧
         row.mobile = getD r "Mobile" (Json.str "") ∧
         row.email = getD r "Email" (Json.str "") ∧
         row.graduation = graduationStr r) ∧
    ((getD r "Work Experiences" Json.null = Json.null ∨
      getD r "Work Experiences" Json.null = Json.arr []) →
       flattenRecord r
         = ([placeholderRow (getD r "Name" (Json.str ""))
              (getD r "Mobile" (Json.str ""))
              (getD r "Email" (Json.str "")) (graduationStr r)], none)) := by
  constructor
  · intro xs hwe hobj hne
    have htr : pyTruthy (getD r "Work Experiences" Json.null) = true := by
      rw [hwe]
      cases xs with
      | nil => exact absurd rfl hne
      | cons x t => rfl
    unfold flattenRecord
    rw [if_pos htr, hwe]
    simp only [flattenWE]
    obtain ⟨e2, e1, e3⟩ := flattenExp_obj (getD r "Name" (Json.str ""))
      (getD r "Mobile" (Json.str "")) (getD r "Email" (Json.str ""))
      (graduationStr r) xs hobj
    exact ⟨e1, e2, e3⟩
  · intro hwe
    have htr : pyTruthy (getD r "Work Experiences" Json.null) = false := by
      rcases hwe with h | h <;> rw [h] <;> rfl
    unfold flattenRecord
    rw [if_neg (by simp [htr])]

theorem flatten_row_count_and_identity_witness :
    (flattenRecord rexTwoExp).1.length = 2 ∧ (flattenRecord rexTwoExp).2 = none ∧
    0 < (2 : Nat) := by
  have h := (flatten_row_count_and_identity rexTwoExp).1 xsTwoExp
    (by decide) (by decide) (by decide)
  exact ⟨by rw [h.1]; rfl, h.2.1, by decide⟩

/-- C2 (counterexample): flattening a record whose `Work Experiences`
list holds a non-object entry does NOT degrade that entry to empty
strings — `experience.get` raises `AttributeError`, which the per-file
handler catches, and the record yields no placeholder row. -/
theorem flatten_nonobject_experience_throws :
    (flattenRecord rexBadExp).2 = some "AttributeError" ∧
    (flattenRecord rexBadExp).1 = [] := by
  exact ⟨rfl, rfl⟩

/-- C2 (amended): flattening a single record never propagates an
exception when the record's `Work Experiences` value is absent, falsy,
or an array of objects; absent sub-fields degrade to the empty string.
A non-object work-experience entry instead raises an `AttributeError`
that is caught by the per-file handler, producing an error-log entry
(and keeping only the rows flattened before the bad entry), not a row
with empty fields. -/
theorem flatten_total_when_experiences_are_objects (r : List (String × Json))
    (h : weOk r = true) : (flattenRecord r).2 = none := by
  unfold weOk at h
  unfold flattenRecord
  cases hwe : getD r "Work Experiences" Json.null with
  | arr xs =>
      rw [hwe] at h
      by_cases ht : pyTruthy (Json.arr xs) = true
      · rw [if_pos ht]
        simp only [flattenWE]
        exact (flattenExp_obj _ _ _ _ xs (List.all_eq_true.mp h)).1
      · rw [if_neg ht]
  | null =>
      rw [if_neg (by simp [pyTruthy])]
  | bool b =>
      rw [hwe] at h
      simp [pyTruthy] at h
      rw [if_neg (by simp [pyTruthy, h])]
  | num n =>
      rw [hwe] at h
      simp [pyTruthy] at h
      rw [if_neg (by simp [pyTruthy, h])]
  | str s =>
      rw [hwe] at h
      simp [pyTruthy] at h
      rw [if_neg (by simp [pyTruthy, h])]
  | obj kvs =>
      rw [hwe] at h
      simp [pyTruthy] at h
      rw [if_neg (by simp [pyTruthy, h])]

theorem flatten_total_when_experiences_are_objects_witness :
    weOk rexOneExp = true ∧ (flattenRecord rexOneExp).2 = none :=
  ⟨by decide, flatten_total_when_experiences_are_objects rexOneExp (by decide)⟩

/-- C3 (counterexample): a row whose stripped mobile is empty is NOT
excluded from aggregation — `''.join(filter(str.isdigit, "abc-def"))`
is the empty string, which is not NaN, so `dropna` keeps the row and
it is grouped under the empty-string key. -/
theorem empty_normalized_mobile_still_aggregates :
    digitsOf "abc-def" = "" ∧
    aggKeys [⟨Json.str "abc-def", 5⟩] = [Json.str ""] ∧
    aggTotal [⟨Json.str "abc-def", 5⟩] (Json.str "") = 5 := by
  refine ⟨by decide, by decide, by decide⟩

/-- C3 (amended): every string mobile is keyed by its digits-only
normalization; only rows whose normalized mobile is Python `None`
(an empty-list mobile, or a missing/None mobile) are dropped by
`dropna` and excluded from aggregation; a row whose stripped mobile is
the empty string is retained and grouped under the empty-string key;
mobiles "987-654-3210" and "9876543210" normalize to the same key and
their durations sum into one aggregate entry. -/
theorem aggregation_key_normalization :
    (∀ s : String, flatten_mobile (Json.str s) = Json.str (digitsOf s)) ∧
    flatten_mobile (Json.arr []) = Json.null ∧
    flatten_mobile Json.null = Json.null ∧
    (∀ rows : List AggRow, Json.null ∉ aggKeys rows) ∧
    (∀ rows : List AggRow, ∀ r ∈ rows, ∀ s : String,
       r.mobile = Json.str s → Json.str (digitsOf s) ∈ aggKeys rows) ∧
    aggKeys [⟨Json.str "987-654-3210", 7⟩, ⟨Json.str "9876543210", 5⟩]
      = [Json.str "9876543210"] ∧
    aggTotal [⟨Json.str "987-654-3210", 7⟩, ⟨Json.str "9876543210", 5⟩]
      (Json.str "9876543210") = 12 := by
  refine ⟨fun s => rfl, rfl, rfl, ?_, ?_, by decide, by decide⟩
  · intro rows hmem
    unfold aggKeys at hmem
    have h1 := List.mem_dedup.mp hmem
    obtain ⟨r, hr, hm⟩ := List.mem_map.mp h1
    have h2 := (List.mem_filter.mp hr).2
    rw [hm] at h2
    simp at h2
  · intro rows r hr s hs
    have hclean : (⟨Json.str (digitsOf s), r.dur⟩ : AggRow) ∈ cleanRows rows := by
      unfold cleanRows
      apply List.mem_filter.mpr
      constructor
      · exact List.mem_map.mpr ⟨r, hr, by rw [hs]; rfl⟩
      · simp
    unfold aggKeys
    exact List.mem_dedup.mpr (List.mem_map.mpr ⟨_, hclean, rfl⟩)

theorem aggregation_key_normalization_witness :
    Json.str "1" ∈ aggKeys [⟨Json.str "x1", 3⟩] := by
  have h := aggregation_key_normalization.2.2.2.2.1
    [⟨Json.str "x1", 3⟩] ⟨Json.str "x1", 3⟩ (by decide) "x1" rfl
  simpa using h

/-- C4: the month count is 0 whenever the start is unresolved; when
only the end is unresolved the current processing date is substituted;
otherwise it equals (endYear - startYear) * 12 + (endMonth -
startMonth), unclamped, so an end before the start yields a negative
value as-is. -/
theorem months_between_semantics (now : PyDate) :
    (∀ e : Option PyDate, calculate_duration_in_months none e now = 0) ∧
    (∀ s : PyDate, calculate_duration_in_months (some s) none now
       = calculate_duration_in_months (some s) (some now) now) ∧
    (∀ s e : PyDate, calculate_duration_in_months (some s) (some e) now
       = (e.year - s.year) * 12 + ((e.month : Int) - (s.month : Int))) ∧
    calculate_duration_in_months (some ⟨2020, 5, 1⟩) (some ⟨2020, 1, 1⟩) now = -4 := by
  refine ⟨fun e => rfl, fun s => rfl, fun s e => rfl, ?_⟩
  norm_num [calculate_duration_in_months]

/-- C5 (counterexample): the Graduation display string is NOT always
the non-empty parts of Degree and Institution joined by " - " —
`.strip(' -')` also eats hyphens/spaces that belong to the Degree or
Institution text itself, here the leading "-" of degree "-B". -/
theorem graduation_strip_counterexample :
    graduationStr
      [("Graduation", Json.obj [("Degree", Json.str "-B"),
                                ("Institution", Json.str "M")])] = "B - M" ∧
    specJoin "-B" "M" = "-B - M" ∧
    graduationStr
      [("Graduation", Json.obj [("Degree", Json.str "-B"),
                                ("Institution", Json.str "M")])] ≠ specJoin "-B" "M" := by
  refine ⟨by decide, by decide, by decide⟩

/-- C5 (amended): the Graduation display string is the concatenation
`Degree ++ " - " ++ Institution` stripped of every leading and
trailing space and hyphen; whenever Degree and Institution neither
start nor end with a space or hyphen (and both are treated as empty
when Graduation is absent or not an object), this coincides with
joining the non-empty parts by " - " — no leading/trailing separator
when either side is empty, empty when both are. -/
theorem graduation_join_amended (r : List (String × Json)) (deg inst : String)
    (hdeg : gradDegree r = Json.str deg) (hinst : gradInstitution r = Json.str inst)
    (hd1 : deg.data.dropWhile (fun c => stripSet.contains c) = deg.data)
    (hd2 : deg.data.reverse.dropWhile (fun c => stripSet.contains c) = deg.data.reverse)
    (hi1 : inst.data.dropWhile (fun c => stripSet.contains c) = inst.data)
    (hi2 : inst.data.reverse.dropWhile (fun c => stripSet.contains c) = inst.data.reverse) :
    graduationStr r = specJoin deg inst := by
  unfold graduationStr
  rw [hdeg, hinst]
  have hps : pyStr (Json.str deg) = deg := rfl
  have hps2 : pyStr (Json.str inst) = inst := rfl
  rw [hps, hps2]
  apply stringExt
  unfold pyStripSet
  have hdata : (deg ++ " - " ++ inst).data = deg.data ++ [' ', '-', ' '] ++ inst.data := by
    rw [String.data_append, String.data_append]
  rw [hdata, stripBoth_join (fun c => stripSet.contains c) deg.data inst.data
        [' ', '-', ' '] (by decide) hd1 hd2 hi1 hi2]
  by_cases hdeg0 : deg = ""
  · subst hdeg0
    simp [specJoin]
  · have hdd : deg.data ≠ [] := fun h0 => hdeg0 (stringExt h0)
    rw [if_neg hdd]
    by_cases hinst0 : inst = ""
    · subst hinst0
      rw [if_pos rfl]
      simp [specJoin, hdeg0]
    · have hii : inst.data ≠ [] := fun h0 => hinst0 (stringExt h0)
      rw [if_neg hii]
      have hsj : specJoin deg inst = deg ++ " - " ++ inst := by
        simp [specJoin, hdeg0, hinst0]
      rw [hsj, hdata]

theorem graduation_join_amended_witness :
    graduationStr [("Graduation", Json.obj [("Degree", Json.str "BSc"),
                                            ("Institution", Json.str "MIT")])]
      = specJoin "BSc" "MIT" :=
  graduation_join_amended
    [("Graduation", Json.obj [("Degree", Json.str "BSc"),
                              ("Institution", Json.str "MIT")])]
    "BSc" "MIT" (by decide) (by decide) (by decide) (by decide) (by decide) (by decide)

theorem mem_stripBoth {p : Char → Bool} {c : Char} {l : List Char}
    (h : c ∈ ((l.dropWhile p).reverse.dropWhile p).reverse) : c ∈ l := by
  have h1 := List.mem_reverse.mp h
  have h2 := (List.dropWhile_sublist p).subset h1
  have h3 := List.mem_reverse.mp h2
  exact (List.dropWhile_sublist p).subset h3

theorem contains_false_of_not_mem {c : Char} {l : List Char} (h : c ∉ l) :
    l.contains c = false := by
  simpa using h

/-- C6: if the duration text contains an en-dash, the start token is
the text before the first en-dash and the end token the text after the
last en-dash, each trimmed; else if it contains a hyphen, the same
split is done on hyphens; else the entire text is the start token and
the end token is absent. -/
theorem split_range_semantics (x : String) :
    (x.data.contains enDash = true →
       startToken x = pyStrip ⟨x.data.takeWhile (fun a => a != enDash)⟩ ∧
       endTokenOpt x
         = some (pyStrip ⟨(x.data.reverse.takeWhile (fun a => a != enDash)).reverse⟩)) ∧
    (x.data.contains enDash = false → x.data.contains '-' = true →
       startToken x = pyStrip ⟨x.data.takeWhile (fun a => a != '-')⟩ ∧
       endTokenOpt x
         = some (pyStrip ⟨(x.data.reverse.takeWhile (fun a => a != '-')).reverse⟩)) ∧
    (x.data.contains enDash = false → x.data.contains '-' = false →
       startToken x = x ∧ endTokenOpt x = none) := by
  refine ⟨?_, ?_, ?_⟩
  · intro h
    constructor
    · unfold startToken beforeFirstSep
      rw [if_pos h, pySplit_head enDash x.data]
    · unfold endTokenOpt afterLastSep
      rw [if_pos h, pySplit_last enDash x.data]
  · intro h hh
    constructor
    · unfold startToken beforeFirstSep
      rw [if_neg (by simpa using h), if_pos hh, pySplit_head '-' x.data]
    · unfold endTokenOpt afterLastSep
      rw [if_neg (by simpa using h), if_pos hh, pySplit_last '-' x.data]
  · intro h hh
    constructor
    · unfold startToken
      rw [if_neg (by simpa using h), if_neg (by simpa using hh)]
    · unfold endTokenOpt
      rw [if_neg (by simpa using h), if_neg (by simpa using hh)]

theorem split_range_semantics_witness :
    startToken "Jan 2019 – Mar – Present"
      = pyStrip ⟨"Jan 2019 – Mar – Present".data.takeWhile (fun a => a != enDash)⟩ ∧
    endTokenOpt "Jan 2019 – Mar – Present"
      = some (pyStrip
          ⟨("Jan 2019 – Mar – Present".data.reverse.takeWhile (fun a => a != enDash)).reverse⟩) :=
  (split_range_semantics "Jan 2019 – Mar – Present").1 (by decide)

/-- C7: parse_date maps the literal tokens "present", "running" and
"current" (any letter case, after trimming) to the current processing
date, and maps empty or missing input to unresolved. -/
theorem parse_literal_now_tokens (now : PyDate) (s : String)
    (h : pyLower (pyStrip s) = "present" ∨ pyLower (pyStrip s) = "running" ∨
         pyLower (pyStrip s) = "current") :
    parse_date (some s) now = some now ∧
    parse_date none now = none ∧
    parse_date (some "") now = none := by
  refine ⟨?_, rfl, rfl⟩
  have hs0 : ¬ s = "" := by
    intro h0
    subst h0
    rcases h with h | h | h <;> exact absurd h (by decide)
  have hc : (pyLower (pyStrip s) = "present" || pyLower (pyStrip s) = "running" ||
             pyLower (pyStrip s) = "current") = true := by
    rcases h with h | h | h <;> simp [h]
  simp only [parse_date, if_neg hs0, hc, if_true]

theorem parse_literal_now_tokens_witness :
    parse_date (some "  RUNNING ") ⟨2026, 10, 12⟩ = some ⟨2026, 10, 12⟩ :=
  (parse_literal_now_tokens ⟨2026, 10, 12⟩ "  RUNNING " (by decide)).1

/-- C8: the persistence insert, keyed by mobile, skips exactly when a
record for that mobile exists with a creation date before the current
processing date; a same-mobile record created on the current day makes
the attempted INSERT fail on the primary key, leaving the existing
record untouched (not merged or replaced); with no record for the
mobile at all, the row is inserted. -/
theorem insert_skip_policy (db : List DbRow) (row : InputRow) (today : String) :
    ((∃ r ∈ db, r.mobile = row.mobile ∧ r.created_at < today) →
       insert_resume_data db row today = (db, false)) ∧
    ((∃ r ∈ db, r.mobile = row.mobile) →
       (insert_resume_data db row today).1 = db) ∧
    ((∀ r ∈ db, r.mobile ≠ row.mobile) →
       insert_resume_data db row today = (db ++ [rowToDb row today], true)) := by
  refine ⟨?_, ?_, ?_⟩
  · rintro ⟨r, hr, hm, hlt⟩
    have hrf : r ∈ db.filter
        (fun q => q.mobile == row.mobile && decide (q.created_at < today)) :=
      List.mem_filter.mpr ⟨hr, by simp [hm, hlt]⟩
    have hlen : ¬ (db.filter
        (fun q => q.mobile == row.mobile && decide (q.created_at < today))).length = 0 := by
      intro h0
      rw [List.length_eq_zero] at h0
      rw [h0] at hrf
      simp at hrf
    unfold insert_resume_data
    rw [if_neg hlen]
  · rintro ⟨r, hr, hm⟩
    have hany : db.any (fun q => q.mobile == row.mobile) = true :=
      List.any_eq_true.mpr ⟨r, hr, by simp [hm]⟩
    unfold insert_resume_data
    by_cases hl : (db.filter
        (fun q => q.mobile == row.mobile && decide (q.created_at < today))).length = 0
    · rw [if_pos hl, if_pos hany]
    · rw [if_neg hl]
  · intro hall
    have hf : db.filter
        (fun q => q.mobile == row.mobile && decide (q.created_at < today)) = [] := by
      apply List.filter_eq_nil_iff.mpr
      intro q hq
      simp [hall q hq]
    have hany : db.any (fun q => q.mobile == row.mobile) = false := by
      rw [List.any_eq_false]
      intro q hq
      simp [hall q hq]
    unfold insert_resume_data
    rw [hf]
    simp [hany]

theorem insert_skip_policy_witness :
    insert_resume_data dbOld rowNew "2024-06-01" = (dbOld, false) :=
  (insert_skip_policy dbOld rowNew "2024-06-01").1
    ⟨⟨"Old", "111", "o@x.c", "G", "C", "R", 1, 2, "2024-01-01"⟩,
     by decide, by decide, by rw [String.lt_iff_toList_lt]; decide⟩

/-- C9: update_resume leaves the database completely unchanged — its
UPDATE statement has 8 parameter placeholders but is always given 9
values, so the binding step raises an error that is caught internally
and no row is ever modified. -/
theorem update_resume_never_changes (db : List DbRow) (row : DbRow) :
    update_resume db row = db ∧
    (updateParams row).length = 9 ∧
    updateSetCols.length + 1 = 8 := by
  refine ⟨rfl, rfl, rfl⟩

/-- C10: a Duration string containing a hyphen or en-dash is split
into range tokens before any date parsing, so a single date written
with an internal hyphen (e.g. "03-2019" or "2019-03", which the
free-standing token parser would accept via '%m-%Y' or '%Y-%m') is
never handed whole to parse_date; its segments are parsed
independently as start and end. -/
theorem duration_split_before_parse (now : PyDate) (x : String)
    (hen : x.data.contains enDash = false) (hhy : x.data.contains '-' = true) :
    rowStartDate x now = parse_date (some (startToken x)) now ∧
    (startToken x).data.contains '-' = false ∧
    (∀ e : String, endTokenOpt x = some e → e.data.contains '-' = false) ∧
    startToken x ≠ x ∧
    rowStartDate "03-2019" now = none ∧
    rowEndDate "03-2019" now = some ⟨2019, 1, 1⟩ ∧
    parse_date (some "03-2019") now = some ⟨2019, 3, 1⟩ ∧
    rowStartDate "2019-03" now = some ⟨2019, 1, 1⟩ ∧
    rowEndDate "2019-03" now = none ∧
    parse_date (some "2019-03") now = some ⟨2019, 3, 1⟩ := by
  have hstart : startToken x = pyStrip ⟨x.data.takeWhile (fun a => a != '-')⟩ := by
    unfold startToken beforeFirstSep
    rw [if_neg (by simpa using hen), if_pos hhy, pySplit_head '-' x.data]
  have hend : endTokenOpt x
      = some (pyStrip ⟨(x.data.reverse.takeWhile (fun a => a != '-')).reverse⟩) := by
    unfold endTokenOpt afterLastSep
    rw [if_neg (by simpa using hen), if_pos hhy, pySplit_last '-' x.data]
  have hnostart : (startToken x).data.contains '-' = false := by
    rw [hstart]
    apply contains_false_of_not_mem
    intro hmem
    have h1 := @mem_stripBoth pyIsSpace '-' (x.data.takeWhile (fun a => a != '-')) hmem
    have h2 := List.mem_takeWhile_imp h1
    simp at h2
  refine ⟨rfl, hnostart, ?_, ?_, rfl, rfl, rfl, rfl, rfl, rfl⟩
  · intro e he
    rw [hend] at he
    injection he with he2
    rw [← he2]
    apply contains_false_of_not_mem
    intro hmem
    have h1 := @mem_stripBoth pyIsSpace '-'
      ((x.data.reverse.takeWhile (fun a => a != '-')).reverse) hmem
    have h2 := List.mem_takeWhile_imp (List.mem_reverse.mp h1)
    simp at h2
  · intro heq
    rw [heq] at hnostart
    rw [hnostart] at hhy
    exact Bool.noConfusion hhy

theorem duration_split_before_parse_witness :
    startToken "Jan 2020 - Mar 2021" ≠ "Jan 2020 - Mar 2021" ∧
    rowStartDate "03-2019" ⟨2026, 10, 12⟩ = none :=
  ⟨(duration_split_before_parse ⟨2026, 10, 12⟩ "Jan 2020 - Mar 2021"
      (by decide) (by decide)).2.2.2.1,
   (duration_split_before_parse ⟨2026, 10, 12⟩ "Jan 2020 - Mar 2021"
      (by decide) (by decide)).2.2.2.2.1⟩
